import Mathlib

/-!
# mksunxiboot: the sunxi boot image builder

A shallow embedding of `tools/mksunxiboot.c`.

* The image buffer `struct boot_img img` is a byte memory `Mem`, a map from the
  byte offset inside the struct to the byte stored there.  Offsets 0..31 are
  `img.header`, 32..24575 are `img.code`, 24576..25087 are `img.pad`.
* `u32` values are natural numbers below `2 ^ 32`; every `u32` operation of the
  source is reduced modulo `2 ^ 32` explicitly.  Words are laid out
  little-endian.
* The input file is the list of its bytes; the prior (uninitialised) content of
  the stack variable `img` is an explicit argument `img0`.  A byte is a natural
  number below 256; no theorem needs that bound, so none assumes it.
* `main` is modelled on the results of its system calls: what `open` yields for
  the two paths, the size `lseek` reports, the bytes `read` delivers from a
  regular file, and the buffer passed to `write`.
-/

namespace Mksunxiboot

/-! ## Machine integers -/

/-- Number of values of the C type `u32` (`unsigned int`). -/
def U32_MOD : Nat := 2 ^ 32

/-- Width in bits of the C type `unsigned int` (and of `u32`). -/
def UINT_BITS : Nat := 32

/-- Width in bits of `size_t`, the type of `sizeof` expressions.  Lemma
`length_of_width` shows that the 32-bit `size_t` of an ILP32 host gives the same
image. -/
def SIZE_T_BITS : Nat := 64

/-- Bitwise complement `~v` in an unsigned type of `bits` bits. -/
def not_bits (bits v : Nat) : Nat := (2 ^ bits - 1) - v % 2 ^ bits

/-- Macro `#define __ALIGN_MASK(x, mask) (((x)+(mask))&~(mask))`, evaluated in an
unsigned type of `bits` bits. -/
def ALIGN_MASK (bits x mask : Nat) : Nat := ((x + mask) % 2 ^ bits) &&& not_bits bits mask

/-- Macro `#define ALIGN(x, a) __ALIGN_MASK((x), (typeof(x))(a)-1)`, where `typeof(x)`
is an unsigned type of `bits` bits; the subtraction `(typeof(x))(a)-1` is taken
modulo `2 ^ bits`. -/
def ALIGN (bits x a : Nat) : Nat :=
  ALIGN_MASK bits x ((a % 2 ^ bits + (2 ^ bits - 1)) % 2 ^ bits)

/-! ## Constants of the source -/

/-- Value of `sizeof(boot_file_head_t)`: 4 + 8 + 4 + 4 + 12 bytes. -/
def HEADER_SIZE : Nat := 4 + 8 + 4 + 4 + 12

/-- Value of `sizeof(int)` on the hosts the tool is built for. -/
def SIZEOF_INT : Nat := 4

/-- Macro `#define STAMP_VALUE 0x5F0A6C39`. -/
def STAMP_VALUE : Nat := 0x5F0A6C39

/-- Macro `#define BOOT0_MAGIC "eGON.BT0"`, as its eight ASCII bytes. -/
def BOOT0_MAGIC : List Nat := [0x65, 0x47, 0x4F, 0x4E, 0x2E, 0x42, 0x54, 0x30]

/-- Macro `#define SUN4I_SRAM_SIZE (24 * 1024)`. -/
def SUN4I_SRAM_SIZE : Nat := 24 * 1024

/-- Macro `#define SRAM_LOAD_MAX_SIZE (SUN4I_SRAM_SIZE - sizeof(boot_file_head_t))`. -/
def SRAM_LOAD_MAX_SIZE : Nat := SUN4I_SRAM_SIZE - HEADER_SIZE

/-- Macro `#define BLOCK_SIZE 512`. -/
def BLOCK_SIZE : Nat := 512

/-- Exit status `EXIT_FAILURE`. -/
def EXIT_FAILURE : Nat := 1

/-- Exit status `EXIT_SUCCESS`. -/
def EXIT_SUCCESS : Nat := 0

/-! ## Layout of `boot_file_head_t` and `struct boot_img` -/

/-- Offset of `jump_instruction` in the header. -/
def OFF_JUMP : Nat := 0

/-- Offset of `magic[8]` in the header. -/
def OFF_MAGIC : Nat := 4

/-- Offset of `check_sum` in the header. -/
def OFF_CHECK_SUM : Nat := 12

/-- Offset of `length` in the header. -/
def OFF_LENGTH : Nat := 16

/-- Offset of `pad[12]` in the header. -/
def OFF_HPAD : Nat := 20

/-- Offset of `img.code` in `struct boot_img`. -/
def OFF_CODE : Nat := HEADER_SIZE

/-- Offset of `img.pad` in `struct boot_img`. -/
def OFF_PAD : Nat := HEADER_SIZE + SRAM_LOAD_MAX_SIZE

/-- Value of `sizeof(struct boot_img)`. -/
def IMG_SIZE : Nat := HEADER_SIZE + SRAM_LOAD_MAX_SIZE + BLOCK_SIZE

/-! ## Byte memory -/

/-- The bytes of a buffer, by offset. -/
abbrev Mem := Nat → Nat

/-- Load of a `u32` at byte offset `a` (little-endian). -/
def rd32 (m : Mem) (a : Nat) : Nat :=
  m a + 256 * m (a + 1) + 65536 * m (a + 2) + 16777216 * m (a + 3)

/-- Store of the `u32` value `v` at byte offset `a` (little-endian). -/
def wr32 (m : Mem) (a v : Nat) : Mem := fun j =>
  if j = a then v % 256
  else if j = a + 1 then v / 256 % 256
  else if j = a + 2 then v / 65536 % 256
  else if j = a + 3 then v / 16777216 % 256
  else m j

/-- Library call `memset(dst, c, n)`: `n` bytes from offset `dst` become `c`. -/
def memset (m : Mem) (dst c n : Nat) : Mem := fun j =>
  if dst ≤ j ∧ j < dst + n then c else m j

/-- Library call `memcpy(dst, src, n)` from a constant byte string `src`. -/
def memcpy (m : Mem) (dst : Nat) (src : List Nat) (n : Nat) : Mem := fun j =>
  if dst ≤ j ∧ j < dst + n then src.getD (j - dst) 0 else m j

/-- System call `read(fd, buf, n)` on a regular file positioned at offset 0: the first
`min n size` bytes of the file land at `buf`; the rest of the buffer is left
alone. -/
def read_into (m : Mem) (buf : Nat) (file : List Nat) (n : Nat) : Mem := fun j =>
  if buf ≤ j ∧ j < buf + min n file.length then file.getD (j - buf) 0 else m j

/-- Return value of that `read`. -/
def read_count (file : List Nat) (n : Nat) : Nat := min n file.length

/-! ## `gen_check_sum` -/

/-- The loop `for (i = 0, sum = 0; i < loop; i++) sum += buf[i];` with `u32`
wraparound. -/
def sum_loop (buf : Mem) (loop : Nat) : Nat :=
  (List.range loop).foldl (fun sum i => (sum + rd32 buf (4 * i)) % U32_MOD) 0

/-- Function `int gen_check_sum(void *boot_buf)`: the return value and the buffer
afterwards. -/
def gen_check_sum (boot_buf : Mem) : Int × Mem :=
  let length := rd32 boot_buf OFF_LENGTH
  if length &&& 0x3 ≠ 0 then
    (-1, boot_buf)
  else
    let buf := wr32 boot_buf OFF_CHECK_SUM STAMP_VALUE
    let loop := length >>> 2
    let sum := sum_loop buf loop
    (0, wr32 buf OFF_CHECK_SUM sum)

/-! ## `main` -/

/-- Value of `file_size = lseek(fd_in, 0, SEEK_END)`: the size of the file,
converted to `unsigned`, so reduced modulo `2 ^ 32`. -/
def file_size_of (file : List Nat) : Nat := file.length % U32_MOD

/-- The `if (file_size > SRAM_LOAD_MAX_SIZE) ... else ...` choosing `load_size`. -/
def load_size_of (file_size : Nat) : Nat :=
  if file_size > SRAM_LOAD_MAX_SIZE then SRAM_LOAD_MAX_SIZE
  else ALIGN UINT_BITS file_size SIZEOF_INT

/-- The value stored by
`img.header.length = ALIGN(load_size + sizeof(boot_file_head_t), BLOCK_SIZE)`:
the sum and the alignment are computed in `size_t`, the result is converted to
`u32` by the assignment. -/
def length_of (load_size : Nat) : Nat :=
  ALIGN SIZE_T_BITS ((load_size + HEADER_SIZE) % 2 ^ SIZE_T_BITS) BLOCK_SIZE % U32_MOD

/-- The length `main` stores in the header when `file_size` holds `S`. -/
def header_length (S : Nat) : Nat := length_of (load_size_of S)

/-- The value stored in `img.header.jump_instruction`. -/
def jump_instruction : Nat :=
  0xEA000000 ||| ((HEADER_SIZE / SIZEOF_INT - 2) &&& 0x00FFFFFF)

/-- The image buffer after `memset(img.pad, 0, BLOCK_SIZE)` and the `read`. -/
def img_after_read (file : List Nat) (img0 : Mem) : Mem :=
  let img := memset img0 OFF_PAD 0 BLOCK_SIZE
  read_into img OFF_CODE file (load_size_of (file_size_of file))

/-- The image buffer after "fill the header", before `gen_check_sum`. -/
def img_filled (file : List Nat) (img0 : Mem) : Mem :=
  let img := img_after_read file img0
  let img := wr32 img OFF_JUMP jump_instruction
  let img := memcpy img OFF_MAGIC BOOT0_MAGIC 8
  wr32 img OFF_LENGTH (header_length (file_size_of file))

/-- The buffer `gen_check_sum` sums when called from `main`: the filled image
with the stamp in the `check_sum` field. -/
def img_stamped (file : List Nat) (img0 : Mem) : Mem :=
  wr32 (img_filled file img0) OFF_CHECK_SUM STAMP_VALUE

/-- The sum `gen_check_sum` stores when called from `main`. -/
def check_sum_of (file : List Nat) (img0 : Mem) : Nat :=
  sum_loop (img_stamped file img0) (header_length (file_size_of file) / 4)

/-- The image buffer when `write` is called. -/
def img_final (file : List Nat) (img0 : Mem) : Mem :=
  (gen_check_sum (img_filled file img0)).2

/-- The bytes handed to `write(fd_out, (void *)&img, img.header.length)`. -/
def emitted (file : List Nat) (img0 : Mem) : List Nat :=
  let img := img_final file img0
  (List.range (rd32 img OFF_LENGTH)).map img

/-- What a run of `main` does, in order. -/
inductive Event where
  | usage
  | open_input
  | perror_input
  | open_output
  | perror_output
  | print_file_size (v : Nat)
  | print_load_size (v : Nat)
  | print_read (v : Nat)
  | write (bytes : List Nat)
  | print_write (v : Nat)
  | close_input
  | close_output
  deriving DecidableEq

/-- A run of `main`: its events and its exit status. -/
structure Run where
  events : List Event
  status : Nat
  deriving DecidableEq

/-- Function `int main(int argc, char *argv[])`.  `fd_in` is the content of the file
`open(argv[1], O_RDONLY)` yields (`none` when the call fails), `fd_out_ok` tells
whether `open(argv[2], O_WRONLY | O_CREAT, 0666)` succeeds (with `argc = 2`,
`argv[2]` is the null pointer that ends `argv`), `img0` is the prior content of
the stack variable `img`.  The return value of `gen_check_sum` is dropped, as in
the source. -/
def main (argc : Nat) (fd_in : Option (List Nat)) (fd_out_ok : Bool) (img0 : Mem) : Run :=
  if argc < 2 then
    ⟨[Event.usage], EXIT_FAILURE⟩
  else
    match fd_in with
    | none => ⟨[Event.open_input, Event.perror_input], EXIT_FAILURE⟩
    | some file =>
      if !fd_out_ok then
        ⟨[Event.open_input, Event.open_output, Event.perror_output], EXIT_FAILURE⟩
      else
        let file_size := file_size_of file
        let load_size := load_size_of file_size
        let out := emitted file img0
        ⟨[Event.open_input, Event.open_output,
          Event.print_file_size file_size, Event.print_load_size load_size,
          Event.print_read (read_count file load_size),
          Event.write out, Event.print_write out.length,
          Event.close_input, Event.close_output], EXIT_SUCCESS⟩

/-! ## Specification-side readings of an emitted image

These follow the words of the specification (header table, checksum
description); they look at the written bytes only. -/

/-- The 32-bit little-endian word at byte offset `off` of a byte string. -/
def le32 (bs : List Nat) (off : Nat) : Nat :=
  bs.getD off 0 + 256 * bs.getD (off + 1) 0 + 65536 * bs.getD (off + 2) 0
    + 16777216 * bs.getD (off + 3) 0

/-- The byte string with the 32-bit little-endian word at `off` replaced by `v`. -/
def put_le32 (bs : List Nat) (off v : Nat) : List Nat :=
  (((bs.set off (v % 256)).set (off + 1) (v / 256 % 256)).set (off + 2)
    (v / 65536 % 256)).set (off + 3) (v / 16777216 % 256)

/-- Additive checksum of the specification: the sum modulo `2 ^ 32` of the first
`n` 32-bit words of a byte string. -/
def word_sum (bs : List Nat) (n : Nat) : Nat :=
  (List.range n).foldl (fun s i => (s + le32 bs (4 * i)) % 2 ^ 32) 0

/-- Verification procedure of the specification: reset the checksum field (bytes
12..15) to the stamp, then add up the first `length / 4` words, `length` being
the value stored in bytes 16..19. -/
def recompute_check_sum (bs : List Nat) : Nat :=
  word_sum (put_le32 bs 12 0x5F0A6C39) (le32 bs 16 / 4)

/-- Sum of the specification taken over the image as written, the checksum
field left as it is: the first `length / 4` words added up modulo `2 ^ 32`,
`length` being the value stored in bytes 16..19. -/
def unreset_check_sum (bs : List Nat) : Nat :=
  word_sum bs (le32 bs 16 / 4)

/-- Reference checksum of a buffer: the sum modulo `2 ^ 32` of its first `n`
32-bit words, the word with index 3 (the `check_sum` field) counted as the stamp
0x5F0A6C39. -/
def ref_check_sum (m : Mem) (n : Nat) : Nat :=
  ((List.range n).map (fun i => if i = 3 then 0x5F0A6C39 else rd32 m (4 * i))).sum % 2 ^ 32

/-- Rounding `x` up to a multiple of `a`. -/
def round_up (x a : Nat) : Nat := (x + (a - 1)) / a * a

/-! ## Arithmetic of `ALIGN` -/

theorem and_not_mask (w k y : Nat) (hk : k ≤ w) (hy : y < 2 ^ w) :
    y &&& (2 ^ w - 1 - (2 ^ k - 1)) = y / 2 ^ k * 2 ^ k := by
  have h1 : 2 ^ w - 1 - (2 ^ k - 1) = (2 ^ (w - k) - 1) <<< k := by
    rw [Nat.shiftLeft_eq, Nat.sub_mul, ← Nat.pow_add, Nat.sub_add_cancel hk]
    have : 0 < 2 ^ k := Nat.two_pow_pos k
    omega
  rw [h1, ← Nat.shiftRight_eq_div_pow, ← Nat.shiftLeft_eq]
  apply Nat.eq_of_testBit_eq
  intro i
  simp only [Nat.testBit_and, Nat.testBit_shiftLeft, Nat.testBit_shiftRight,
    Nat.testBit_two_pow_sub_one]
  by_cases hik : k ≤ i
  · have : k + (i - k) = i := by omega
    simp only [ge_iff_le, hik, decide_True, Bool.true_and, this]
    by_cases hiw : i < w
    · have : i - k < w - k := by omega
      simp [this]
    · have hlt : y < 2 ^ i := lt_of_lt_of_le hy (Nat.pow_le_pow_right (by decide) (by omega))
      simp [Nat.testBit_lt_two_pow hlt]
  · simp [hik]

/-- On a power of two, without wraparound, `ALIGN` rounds up. -/
theorem ALIGN_pow_two (bits k x : Nat) (hk : k < bits) (hx : x + (2 ^ k - 1) < 2 ^ bits) :
    ALIGN bits x (2 ^ k) = round_up x (2 ^ k) := by
  have hlt : 2 ^ k < 2 ^ bits := Nat.pow_lt_pow_right (by decide) hk
  have hpos : 0 < 2 ^ k := Nat.two_pow_pos k
  have hmask : (2 ^ k % 2 ^ bits + (2 ^ bits - 1)) % 2 ^ bits = 2 ^ k - 1 := by
    rw [Nat.mod_eq_of_lt hlt]
    have : 2 ^ k + (2 ^ bits - 1) = (2 ^ k - 1) + 2 ^ bits := by omega
    rw [this, Nat.add_mod_right, Nat.mod_eq_of_lt (by omega)]
  unfold ALIGN ALIGN_MASK not_bits round_up
  rw [hmask, Nat.mod_eq_of_lt hx, Nat.mod_eq_of_lt (by omega : 2 ^ k - 1 < 2 ^ bits)]
  exact and_not_mask bits k _ (Nat.le_of_lt hk) hx

theorem ALIGN_uint_4 (x : Nat) (hx : x + 3 < 2 ^ 32) :
    ALIGN UINT_BITS x SIZEOF_INT = round_up x 4 :=
  ALIGN_pow_two 32 2 x (by decide) hx

theorem ALIGN_size_t_512 (x : Nat) (hx : x + 511 < 2 ^ 64) :
    ALIGN SIZE_T_BITS x BLOCK_SIZE = round_up x 512 :=
  ALIGN_pow_two 64 9 x (by decide) hx

theorem round_up_4 (x : Nat) : round_up x 4 = (x + 3) / 4 * 4 := rfl

theorem round_up_512 (x : Nat) : round_up x 512 = (x + 511) / 512 * 512 := rfl

/-- The two branches of `load_size_of`, in plain arithmetic. -/
theorem load_size_of_eq (S : Nat) :
    load_size_of S = if S > 24544 then 24544 else round_up S 4 := by
  unfold load_size_of
  have h : SRAM_LOAD_MAX_SIZE = 24544 := by decide
  rw [h]
  split
  · rfl
  · exact ALIGN_uint_4 S (by omega)

theorem load_size_of_le (S : Nat) : load_size_of S ≤ 24544 := by
  rw [load_size_of_eq]
  split
  · exact Nat.le_refl _
  · rw [round_up_4]; omega

theorem load_size_of_mod (S : Nat) : load_size_of S % 4 = 0 := by
  rw [load_size_of_eq]
  split
  · decide
  · rw [round_up_4]; omega

theorem load_size_of_ge (S : Nat) (h : S ≤ 24544) : S ≤ load_size_of S := by
  rw [load_size_of_eq, if_neg (by omega), round_up_4]; omega

/-- The stored length, in plain arithmetic, for the load sizes `main` can reach. -/
theorem length_of_eq (ls : Nat) (h : ls ≤ 24544) :
    length_of ls = round_up (ls + 32) 512 := by
  unfold length_of
  have hh : HEADER_SIZE = 32 := by decide
  have hs : SIZE_T_BITS = 64 := rfl
  have hu : U32_MOD = 2 ^ 32 := rfl
  rw [hh, hu]
  have h1 : (ls + 32) % 2 ^ SIZE_T_BITS = ls + 32 := by
    rw [hs]; exact Nat.mod_eq_of_lt (by omega)
  rw [h1, ALIGN_size_t_512 _ (by omega), round_up_512]
  exact Nat.mod_eq_of_lt (by omega)

/-- A 32-bit `size_t` stores the same length as the 64-bit one of the model. -/
theorem length_of_width (ls : Nat) (h : ls ≤ 24544) :
    ALIGN 32 ((ls + HEADER_SIZE) % 2 ^ 32) BLOCK_SIZE % U32_MOD = length_of ls := by
  rw [length_of_eq ls h]
  have hh : HEADER_SIZE = 32 := by decide
  have hu : U32_MOD = 2 ^ 32 := rfl
  have hb : BLOCK_SIZE = 2 ^ 9 := by decide
  rw [hh, hu, hb, Nat.mod_eq_of_lt (by omega : ls + 32 < 2 ^ 32),
    ALIGN_pow_two 32 9 _ (by decide) (by omega)]
  have : round_up (ls + 32) (2 ^ 9) = (ls + 32 + 511) / 512 * 512 := rfl
  rw [this]
  exact Nat.mod_eq_of_lt (by omega)

theorem header_length_eq (S : Nat) :
    header_length S = round_up (load_size_of S + 32) 512 :=
  length_of_eq _ (load_size_of_le S)

theorem header_length_mod (S : Nat) : header_length S % 512 = 0 := by
  rw [header_length_eq, round_up_512]; omega

theorem header_length_bounds (S : Nat) :
    load_size_of S + 32 ≤ header_length S ∧ 512 ≤ header_length S ∧
      header_length S ≤ 24576 := by
  have h := load_size_of_le S
  rw [header_length_eq, round_up_512]; omega

/-! ## Loads and stores -/

theorem rd32_wr32_same (m : Mem) (a v : Nat) : rd32 (wr32 m a v) a = v % 2 ^ 32 := by
  unfold rd32 wr32
  simp only [if_true, Nat.add_right_eq_self, OfNat.ofNat_ne_zero, if_false,
    add_right_inj, OfNat.ofNat_ne_one, Nat.reduceEqDiff]
  omega

theorem wr32_of_out (m : Mem) (a v j : Nat) (h : j < a ∨ a + 4 ≤ j) :
    wr32 m a v j = m j := by
  unfold wr32
  rw [if_neg (by omega), if_neg (by omega), if_neg (by omega), if_neg (by omega)]

theorem rd32_congr (m m' : Mem) (b : Nat) (h : ∀ j, b ≤ j → j < b + 4 → m j = m' j) :
    rd32 m b = rd32 m' b := by
  unfold rd32
  rw [h b (by omega) (by omega), h (b + 1) (by omega) (by omega),
    h (b + 2) (by omega) (by omega), h (b + 3) (by omega) (by omega)]

theorem rd32_wr32_of_disjoint (m : Mem) (a v b : Nat) (h : b + 4 ≤ a ∨ a + 4 ≤ b) :
    rd32 (wr32 m a v) b = rd32 m b :=
  rd32_congr _ _ b (fun j h1 h2 => wr32_of_out m a v j (by omega))

theorem wr32_wr32_same (m : Mem) (a v w : Nat) : wr32 (wr32 m a v) a w = wr32 m a w := by
  funext j
  unfold wr32
  split
  · rfl
  · split
    · rfl
    · split
      · rfl
      · split <;> rfl

/-! ## The summation loop -/

theorem sum_loop_zero (buf : Mem) : sum_loop buf 0 = 0 := rfl

theorem sum_loop_succ (buf : Mem) (n : Nat) :
    sum_loop buf (n + 1) = (sum_loop buf n + rd32 buf (4 * n)) % 2 ^ 32 := by
  unfold sum_loop
  rw [List.range_succ, List.foldl_append]
  rfl

theorem sum_loop_lt (buf : Mem) (n : Nat) : sum_loop buf n < 2 ^ 32 := by
  cases n with
  | zero => rw [sum_loop_zero]; decide
  | succ k => rw [sum_loop_succ]; exact Nat.mod_lt _ (by decide)

theorem sum_loop_congr (m m' : Mem) (n : Nat) (h : ∀ j, j < 4 * n → m j = m' j) :
    sum_loop m n = sum_loop m' n := by
  induction n with
  | zero => rfl
  | succ k ih =>
    rw [sum_loop_succ, sum_loop_succ, ih (fun j hj => h j (by omega)),
      rd32_congr m m' (4 * k) (fun j _ h2 => h j (by omega))]

/-! ## `gen_check_sum` -/

/-- The alignment test of `gen_check_sum` is a test modulo 4. -/
theorem and_three (x : Nat) : x &&& 0x3 = x % 4 :=
  Nat.and_pow_two_sub_one_eq_mod x 2

/-- The shift of `gen_check_sum` is a division by 4. -/
theorem shr_two (x : Nat) : x >>> 2 = x / 4 :=
  Nat.shiftRight_eq_div_pow x 2

theorem gen_check_sum_aligned (m : Mem) (h : rd32 m OFF_LENGTH % 4 = 0) :
    gen_check_sum m =
      (0, wr32 (wr32 m OFF_CHECK_SUM STAMP_VALUE) OFF_CHECK_SUM
        (sum_loop (wr32 m OFF_CHECK_SUM STAMP_VALUE) (rd32 m OFF_LENGTH / 4))) := by
  unfold gen_check_sum
  simp only [and_three, shr_two, h, ne_eq, not_true_eq_false, if_false]

theorem gen_check_sum_misaligned (m : Mem) (h : rd32 m OFF_LENGTH % 4 ≠ 0) :
    gen_check_sum m = (-1, m) := by
  unfold gen_check_sum
  simp only [and_three, ne_eq, h, not_false_eq_true, if_true]

/-- Outside the `check_sum` field `gen_check_sum` leaves every byte alone. -/
theorem gen_check_sum_frame (m : Mem) (j : Nat) (h : j < 12 ∨ 16 ≤ j) :
    (gen_check_sum m).2 j = m j := by
  by_cases hl : rd32 m OFF_LENGTH % 4 = 0
  · rw [gen_check_sum_aligned m hl]
    have ho : OFF_CHECK_SUM = 12 := rfl
    simp only [ho]
    rw [wr32_of_out _ _ _ _ (by omega), wr32_of_out _ _ _ _ (by omega)]
  · rw [gen_check_sum_misaligned m hl]

/-! ## The image buffer of `main` -/

theorem header_length_lt (S : Nat) : header_length S < 2 ^ 32 := by
  have := (header_length_bounds S).2.2
  omega

/-- The length field before the checksum step. -/
theorem rd32_length_filled (file : List Nat) (img0 : Mem) :
    rd32 (img_filled file img0) OFF_LENGTH = header_length (file_size_of file) := by
  unfold img_filled
  simp only []
  rw [rd32_wr32_same]
  exact Nat.mod_eq_of_lt (header_length_lt _)

theorem length_filled_mod (file : List Nat) (img0 : Mem) :
    rd32 (img_filled file img0) OFF_LENGTH % 4 = 0 := by
  rw [rd32_length_filled]
  have := header_length_mod (file_size_of file)
  omega

theorem img_final_eq (file : List Nat) (img0 : Mem) :
    img_final file img0 =
      wr32 (img_stamped file img0) OFF_CHECK_SUM (check_sum_of file img0) := by
  unfold img_final
  rw [gen_check_sum_aligned _ (length_filled_mod file img0), rd32_length_filled]
  rfl

theorem img_final_frame (file : List Nat) (img0 : Mem) (j : Nat) (h : j < 12 ∨ 16 ≤ j) :
    img_final file img0 j = img_filled file img0 j :=
  gen_check_sum_frame _ j h

theorem rd32_length_final (file : List Nat) (img0 : Mem) :
    rd32 (img_final file img0) OFF_LENGTH = header_length (file_size_of file) := by
  rw [← rd32_length_filled file img0]
  exact rd32_congr _ _ _ (fun j h1 _ => img_final_frame file img0 j (Or.inr h1))

theorem rd32_check_sum_final (file : List Nat) (img0 : Mem) :
    rd32 (img_final file img0) OFF_CHECK_SUM = check_sum_of file img0 := by
  rw [img_final_eq, rd32_wr32_same]
  exact Nat.mod_eq_of_lt (sum_loop_lt _ _)

/-! ## The emitted bytes -/

theorem emitted_eq (file : List Nat) (img0 : Mem) :
    emitted file img0 =
      (List.range (header_length (file_size_of file))).map (img_final file img0) := by
  unfold emitted
  simp only []
  rw [rd32_length_final]

theorem emitted_length (file : List Nat) (img0 : Mem) :
    (emitted file img0).length = header_length (file_size_of file) := by
  rw [emitted_eq, List.length_map, List.length_range]

theorem map_range_getD (f : Nat → Nat) (n j : Nat) (h : j < n) :
    ((List.range n).map f).getD j 0 = f j := by
  rw [List.getD_eq_getElem?_getD, List.getElem?_map, List.getElem?_range h]
  rfl

theorem emitted_getD (file : List Nat) (img0 : Mem) (j : Nat)
    (h : j < header_length (file_size_of file)) :
    (emitted file img0).getD j 0 = img_final file img0 j := by
  rw [emitted_eq, map_range_getD _ _ _ h]

theorem le32_map_range (f : Nat → Nat) (n off : Nat) (h : off + 3 < n) :
    le32 ((List.range n).map f) off = rd32 f off := by
  unfold le32 rd32
  rw [map_range_getD _ _ _ (by omega), map_range_getD _ _ _ (by omega),
    map_range_getD _ _ _ (by omega), map_range_getD _ _ _ (by omega)]

theorem le32_emitted (file : List Nat) (img0 : Mem) (off : Nat)
    (h : off + 3 < header_length (file_size_of file)) :
    le32 (emitted file img0) off = rd32 (img_final file img0) off := by
  rw [emitted_eq, le32_map_range _ _ _ h]

theorem le32_length_emitted (file : List Nat) (img0 : Mem) :
    le32 (emitted file img0) 16 = header_length (file_size_of file) := by
  have := (header_length_bounds (file_size_of file)).2.1
  rw [le32_emitted _ _ _ (by omega)]
  exact rd32_length_final file img0

theorem le32_check_sum_emitted (file : List Nat) (img0 : Mem) :
    le32 (emitted file img0) 12 = check_sum_of file img0 := by
  have := (header_length_bounds (file_size_of file)).2.1
  rw [le32_emitted _ _ _ (by omega)]
  exact rd32_check_sum_final file img0

theorem put_le32_map_range (f : Nat → Nat) (n off v : Nat) (h : off + 3 < n) :
    put_le32 ((List.range n).map f) off v = (List.range n).map (wr32 f off v) := by
  apply List.ext_getElem
  · simp [put_le32]
  · intro j h1 h2
    simp only [put_le32, List.getElem_set, List.getElem_map, List.getElem_range, wr32]
    by_cases h3 : j = off + 3
    · subst h3; simp
    · by_cases h4 : j = off + 2
      · subst h4; simp
      · by_cases h5 : j = off + 1
        · subst h5; simp
        · by_cases h6 : j = off
          · subst h6; simp
          · rw [if_neg (Ne.symm h3), if_neg (Ne.symm h4), if_neg (Ne.symm h5),
              if_neg (Ne.symm h6), if_neg h6, if_neg h5, if_neg h4, if_neg h3]

theorem word_sum_eq_sum_loop (bs : List Nat) (k : Nat) :
    word_sum bs k = sum_loop (fun j => bs.getD j 0) k := rfl

theorem word_sum_map_range (f : Nat → Nat) (n k : Nat) (h : 4 * k ≤ n) :
    word_sum ((List.range n).map f) k = sum_loop f k := by
  rw [word_sum_eq_sum_loop]
  exact sum_loop_congr _ _ k (fun j hj => map_range_getD f n j (by omega))

theorem img_final_restamped (file : List Nat) (img0 : Mem) :
    wr32 (img_final file img0) 12 0x5F0A6C39 = img_stamped file img0 := by
  rw [img_final_eq]
  unfold img_stamped
  have ho : OFF_CHECK_SUM = 12 := rfl
  have hs : STAMP_VALUE = 0x5F0A6C39 := rfl
  rw [ho, hs, wr32_wr32_same, wr32_wr32_same]

/-! ## Bytes of the filled image -/

theorem memset_of_out (m : Mem) (dst c n j : Nat) (h : j < dst ∨ dst + n ≤ j) :
    memset m dst c n j = m j := by
  unfold memset
  rw [if_neg (by omega)]

theorem memcpy_of_out (m : Mem) (dst : Nat) (src : List Nat) (n j : Nat)
    (h : j < dst ∨ dst + n ≤ j) : memcpy m dst src n j = m j := by
  unfold memcpy
  rw [if_neg (by omega)]

theorem memcpy_of_in (m : Mem) (dst : Nat) (src : List Nat) (n j : Nat)
    (h1 : dst ≤ j) (h2 : j < dst + n) : memcpy m dst src n j = src.getD (j - dst) 0 := by
  unfold memcpy
  rw [if_pos ⟨h1, h2⟩]

theorem read_into_of_out (m : Mem) (buf : Nat) (file : List Nat) (n j : Nat)
    (h : j < buf ∨ buf + min n file.length ≤ j) : read_into m buf file n j = m j := by
  unfold read_into
  rw [if_neg (by omega)]

theorem read_into_of_in (m : Mem) (buf : Nat) (file : List Nat) (n i : Nat)
    (h : i < min n file.length) : read_into m buf file n (buf + i) = file.getD i 0 := by
  unfold read_into
  rw [if_pos ⟨by omega, by omega⟩, Nat.add_sub_cancel_left]

theorem img_after_read_payload (file : List Nat) (img0 : Mem) (i : Nat)
    (h : i < min (load_size_of (file_size_of file)) file.length) :
    img_after_read file img0 (32 + i) = file.getD i 0 :=
  read_into_of_in _ 32 file _ i h

theorem img_after_read_rest (file : List Nat) (img0 : Mem) (j : Nat)
    (h1 : j < 32 ∨ 32 + min (load_size_of (file_size_of file)) file.length ≤ j)
    (h2 : j < 24576) : img_after_read file img0 j = img0 j := by
  unfold img_after_read
  have hc : OFF_CODE = 32 := by decide
  have hp : OFF_PAD = 24576 := by decide
  simp only [hc, hp]
  rw [read_into_of_out _ _ _ _ _ h1, memset_of_out _ _ _ _ _ (Or.inl h2)]

theorem img_filled_code (file : List Nat) (img0 : Mem) (j : Nat) (h : 20 ≤ j) :
    img_filled file img0 j = img_after_read file img0 j := by
  unfold img_filled
  have h1 : OFF_LENGTH = 16 := rfl
  have h2 : OFF_MAGIC = 4 := rfl
  have h3 : OFF_JUMP = 0 := rfl
  simp only [h1, h2, h3]
  rw [wr32_of_out _ _ _ _ (by omega), memcpy_of_out _ _ _ _ _ (by omega),
    wr32_of_out _ _ _ _ (by omega)]

theorem img_filled_magic (file : List Nat) (img0 : Mem) (j : Nat) (h1 : 4 ≤ j) (h2 : j < 12) :
    img_filled file img0 j = BOOT0_MAGIC.getD (j - 4) 0 := by
  unfold img_filled
  have h3 : OFF_LENGTH = 16 := rfl
  have h4 : OFF_MAGIC = 4 := rfl
  simp only [h3, h4]
  rw [wr32_of_out _ _ _ _ (by omega), memcpy_of_in _ _ _ _ _ h1 (by omega)]

theorem rd32_jump_filled (file : List Nat) (img0 : Mem) :
    rd32 (img_filled file img0) 0 = jump_instruction := by
  unfold img_filled
  have h3 : OFF_LENGTH = 16 := rfl
  have h4 : OFF_MAGIC = 4 := rfl
  have h5 : OFF_JUMP = 0 := rfl
  simp only [h3, h4, h5]
  rw [rd32_wr32_of_disjoint _ _ _ _ (by omega),
    rd32_congr _ _ 0 (fun j _ hj => memcpy_of_out _ 4 BOOT0_MAGIC 8 j (by omega)),
    rd32_wr32_same]
  decide

theorem file_size_of_small (file : List Nat) (h : file.length < 2 ^ 32) :
    file_size_of file = file.length :=
  Nat.mod_eq_of_lt h

/-- A successful run of `main` hands `emitted file img0` to `write`. -/
theorem main_writes (argc : Nat) (file : List Nat) (img0 : Mem) (h : 2 ≤ argc) :
    Event.write (emitted file img0) ∈ (main argc (some file) true img0).events ∧
      (main argc (some file) true img0).status = EXIT_SUCCESS := by
  unfold main
  rw [if_neg (by omega)]
  simp

/-- Bytes of the final image from offset 32 on, below the trailing pad: the
payload where `read` stored it, the prior content of the buffer elsewhere. -/
theorem img_final_payload (file : List Nat) (img0 : Mem) (i : Nat)
    (h : i < min (load_size_of (file_size_of file)) file.length) :
    img_final file img0 (32 + i) = file.getD i 0 := by
  rw [img_final_frame _ _ _ (by omega), img_filled_code _ _ _ (by omega),
    img_after_read_payload _ _ _ h]

theorem img_final_rest (file : List Nat) (img0 : Mem) (j : Nat)
    (h0 : 20 ≤ j)
    (h1 : j < 32 ∨ 32 + min (load_size_of (file_size_of file)) file.length ≤ j)
    (h2 : j < 24576) : img_final file img0 j = img0 j := by
  rw [img_final_frame _ _ _ (by omega), img_filled_code _ _ _ h0,
    img_after_read_rest _ _ _ h1 h2]

theorem load_size_of_take (file : List Nat) (h : file.length < 2 ^ 32) :
    load_size_of (file_size_of (file.take 24544)) = load_size_of (file_size_of file) ∧
      min (load_size_of (file_size_of file)) (file.take 24544).length =
        min (load_size_of (file_size_of file)) file.length := by
  have ht : (file.take 24544).length = min 24544 file.length := List.length_take _ _
  have hl := load_size_of_le (file_size_of file)
  rw [file_size_of_small file h] at hl ⊢
  rw [file_size_of_small _ (by omega), ht]
  by_cases hc : 24544 < file.length
  · rw [Nat.min_eq_left (Nat.le_of_lt hc)]
    rw [load_size_of_eq, load_size_of_eq, if_pos hc, if_neg (by omega)]
    exact ⟨by decide, by omega⟩
  · rw [Nat.min_eq_right (by omega)]
    exact ⟨rfl, rfl⟩

theorem getD_take (file : List Nat) (n i : Nat) (h : i < n) :
    (file.take n).getD i 0 = file.getD i 0 := by
  rw [List.getD_eq_getElem?_getD, List.getD_eq_getElem?_getD, List.getElem?_take_of_lt h]

/-- The image buffer is the same for a file and for its first 24544 bytes. -/
theorem img_after_read_take (file : List Nat) (img0 : Mem) (h : file.length < 2 ^ 32) :
    img_after_read (file.take 24544) img0 = img_after_read file img0 := by
  funext j
  have hl := load_size_of_le (file_size_of file)
  obtain ⟨e1, e2⟩ := load_size_of_take file h
  unfold img_after_read read_into
  simp only [e1, e2]
  split
  · rename_i hj
    exact getD_take file 24544 _ (by omega)
  · rfl

theorem emitted_take (file : List Nat) (img0 : Mem) (h : file.length < 2 ^ 32) :
    emitted (file.take 24544) img0 = emitted file img0 := by
  have e1 := (load_size_of_take file h).1
  have hl : header_length (file_size_of (file.take 24544)) =
      header_length (file_size_of file) := by
    unfold header_length
    rw [e1]
  have hf : img_filled (file.take 24544) img0 = img_filled file img0 := by
    unfold img_filled
    simp only [img_after_read_take file img0 h, hl]
  unfold emitted img_final
  rw [hf]

/-! ## The claims -/

/-- C1: checksum round trip.  For every input file and every prior content of
the image buffer, resetting bytes 12..15 of the written image to the stamp and
adding up its first `length / 4` words modulo `2 ^ 32` (`length` read from bytes
16..19) gives the checksum stored in bytes 12..15 of the written image. -/
theorem check_sum_round_trip (file : List Nat) (img0 : Mem) :
    recompute_check_sum (emitted file img0) = le32 (emitted file img0) 12 := by
  unfold recompute_check_sum
  rw [le32_length_emitted, le32_check_sum_emitted, emitted_eq]
  have hb := (header_length_bounds (file_size_of file)).2.1
  rw [put_le32_map_range _ _ _ _ (by omega), word_sum_map_range _ _ _ (by omega),
    img_final_restamped]
  rfl

/-- Length field as a function of the input size, for the sizes `file_size`
holds without truncation.  For every input file of size `S < 2 ^ 32`: if
`S <= 24544` the length field (bytes 16..19 of the written image) is `S` rounded
up to a multiple of 4, plus 32, rounded up to a multiple of 512; if `S > 24544`
it is 24576.  For a file of `2 ^ 32` bytes or more `file_size` holds the size
modulo `2 ^ 32` and the statement can fail. -/
theorem length_field_of_size (file : List Nat) (img0 : Mem) (h : file.length < 2 ^ 32) :
    (file.length ≤ 24544 →
      le32 (emitted file img0) 16 = round_up (round_up file.length 4 + 32) 512) ∧
    (24544 < file.length → le32 (emitted file img0) 16 = 24576) := by
  rw [le32_length_emitted, file_size_of_small file h, header_length_eq, load_size_of_eq]
  constructor
  · intro h1
    rw [if_neg (by omega)]
  · intro h1
    rw [if_pos h1]
    decide

/-- Example of `length_field_of_size`: the empty file and the file `01 02 03 04`
both get the length field 512. -/
theorem length_field_of_size_witness :
    ([] : List Nat).length < 2 ^ 32 ∧ ([1, 2, 3, 4] : List Nat).length < 2 ^ 32 ∧
      le32 (emitted [] (fun _ => 0)) 16 = 512 ∧
      le32 (emitted [1, 2, 3, 4] (fun _ => 0)) 16 = 512 :=
  ⟨by decide, by decide,
    ((length_field_of_size [] (fun _ => 0) (by decide)).1 (by decide)).trans (by decide),
    ((length_field_of_size [1, 2, 3, 4] (fun _ => 0) (by decide)).1 (by decide)).trans
      (by decide)⟩

/-- C3: for every value `S` the variable `file_size` can hold (any natural
number, so also 0xFFFFFFFF of a failed seek), the length `main` stores in the
header is a multiple of 512; so is the length field of every written image. -/
theorem length_multiple_of_block (S : Nat) (file : List Nat) (img0 : Mem) :
    header_length S % 512 = 0 ∧ header_length 0xFFFFFFFF % 512 = 0 ∧
      le32 (emitted file img0) 16 % 512 = 0 := by
  rw [le32_length_emitted]
  exact ⟨header_length_mod S, header_length_mod _, header_length_mod _⟩

/-- C4: for every input file, the bytes `main` hands to `write` are
`emitted file img0`; their number equals the length field stored in bytes 16..19
of those bytes, and they are the bytes of the in-memory image from offset 0 on;
the input `01 02 03 04` gives 512 bytes with length field 512. -/
theorem emitted_size_is_length (file : List Nat) (img0 : Mem) :
    Event.write (emitted file img0) ∈ (main 3 (some file) true img0).events ∧
      (emitted file img0).length = le32 (emitted file img0) 16 ∧
      emitted file img0 =
        (List.range (le32 (emitted file img0) 16)).map (img_final file img0) ∧
      (emitted [1, 2, 3, 4] img0).length = 512 ∧
      le32 (emitted [1, 2, 3, 4] img0) 16 = 512 := by
  have h4 : header_length (file_size_of [1, 2, 3, 4]) = 512 := by
    rw [file_size_of_small _ (by decide), header_length_eq, load_size_of_eq]
    decide
  refine ⟨(main_writes 3 file img0 (by decide)).1, ?_, ?_, ?_, ?_⟩
  · rw [le32_length_emitted, emitted_length]
  · rw [le32_length_emitted, emitted_eq]
  · rw [emitted_length, h4]
  · rw [le32_length_emitted, h4]

/-- Payload copied verbatim and truncated at the maximum, for the sizes
`file_size` holds without truncation.  For every input file of size
`S < 2 ^ 32` and every index `i < min S 24544`, offset `32 + i` lies inside the
written bytes and holds input byte `i`; and the written bytes are those written
for the first 24544 bytes of the file alone, so input bytes at index 24544 and
beyond have no part in the output.  For a file of `2 ^ 32` bytes or more
`file_size` holds the size modulo `2 ^ 32` and the statement can fail. -/
theorem payload_copied_and_truncated (file : List Nat) (img0 : Mem)
    (h : file.length < 2 ^ 32) :
    (∀ i, i < min file.length 24544 →
      32 + i < (emitted file img0).length ∧
        (emitted file img0).getD (32 + i) 0 = file.getD i 0) ∧
    emitted file img0 = emitted (file.take 24544) img0 := by
  refine ⟨?_, (emitted_take file img0 h).symm⟩
  intro i hi
  have hb := (header_length_bounds (file_size_of file)).1
  have hl : min file.length 24544 ≤ load_size_of (file_size_of file) := by
    rw [file_size_of_small file h, load_size_of_eq]
    split
    · exact Nat.min_le_right _ _
    · rw [round_up_4]; omega
  have hlt : 32 + i < header_length (file_size_of file) := by omega
  rw [emitted_length]
  refine ⟨hlt, ?_⟩
  rw [emitted_getD _ _ _ hlt]
  exact img_final_payload file img0 i (by omega)

/-- Example of `payload_copied_and_truncated` on a 5-byte file: offset 36 of the
written image holds the last input byte. -/
theorem payload_copied_and_truncated_witness :
    ([1, 2, 3, 4, 5] : List Nat).length < 2 ^ 32 ∧
      (emitted [1, 2, 3, 4, 5] (fun _ => 0xAA)).getD (32 + 4) 0 = 5 :=
  ⟨by decide,
    (((payload_copied_and_truncated [1, 2, 3, 4, 5] (fun _ => 0xAA) (by decide)).1 4
      (by decide)).2).trans (by decide)⟩

/-- C6: for every input file, bytes 4..11 of the written image are the eight
ASCII bytes of "eGON.BT0"; the `memcpy` that stores them writes no byte outside
offsets 4..11 (no terminator), and `gen_check_sum` leaves offsets 4..11 alone. -/
theorem magic_bytes (file : List Nat) (img0 : Mem) :
    ((emitted file img0).drop 4).take 8 = [0x65, 0x47, 0x4F, 0x4E, 0x2E, 0x42, 0x54, 0x30] ∧
    (∀ (m : Mem) (j : Nat), ¬ (4 ≤ j ∧ j < 12) → memcpy m OFF_MAGIC BOOT0_MAGIC 8 j = m j) ∧
    (∀ (m : Mem) (j : Nat), 4 ≤ j → j < 12 → (gen_check_sum m).2 j = m j) := by
  refine ⟨?_, ?_, ?_⟩
  · have hb := (header_length_bounds (file_size_of file)).2.1
    have hlen : (emitted file img0).length = header_length (file_size_of file) :=
      emitted_length file img0
    apply List.ext_getElem
    · rw [List.length_take, List.length_drop, hlen]
      simp only [List.length_cons, List.length_nil]
      omega
    · intro j h1 h2
      simp only [List.length_cons, List.length_nil] at h2
      rw [List.getElem_take, List.getElem_drop]
      have hj : 4 + j < header_length (file_size_of file) := by omega
      have e := emitted_getD file img0 (4 + j) hj
      rw [List.getD_eq_getElem?_getD, List.getElem?_eq_getElem (by omega)] at e
      simp only [Option.getD_some] at e
      rw [e, img_final_frame _ _ _ (by omega), img_filled_magic _ _ _ (by omega) (by omega),
        Nat.add_sub_cancel_left]
      have hj8 : j < 8 := by omega
      interval_cases j <;> rfl
  · intro m j hj
    exact memcpy_of_out m 4 BOOT0_MAGIC 8 j (by omega)
  · intro m j h1 h2
    exact gen_check_sum_frame m j (Or.inl h2)

/-- C7: for every input file, the word at offset 0 of the written image is
0xEA000006, the opcode 0xEA000000 or-ed with the offset
`(32 / 4 - 2) & 0x00FFFFFF = 6`. -/
theorem jump_instruction_word (file : List Nat) (img0 : Mem) :
    le32 (emitted file img0) 0 = 0xEA000006 ∧
      jump_instruction = 0xEA000000 ||| 6 ∧
      (HEADER_SIZE / SIZEOF_INT - 2) &&& 0x00FFFFFF = 6 ∧ HEADER_SIZE = 32 := by
  have hb := (header_length_bounds (file_size_of file)).2.1
  refine ⟨?_, by decide, by decide, by decide⟩
  rw [le32_emitted _ _ _ (by omega),
    rd32_congr _ _ 0 (fun j _ hj => img_final_frame file img0 j (by omega)),
    rd32_jump_filled]
  decide

/-- C8, the code at the failing input `01 02 03 04` with a buffer that held 0xFF
bytes: `load_size` is 4, the length field is 512, and every written byte from
offset 36 on is 0xFF, not 0x00. -/
theorem trailing_padding_not_zeroed :
    load_size_of (file_size_of [1, 2, 3, 4]) = 4 ∧
      le32 (emitted [1, 2, 3, 4] (fun _ => 0xFF)) 16 = 512 ∧
      ∀ j, 32 + 4 ≤ j → j < 512 → (emitted [1, 2, 3, 4] (fun _ => 0xFF)).getD j 0 = 0xFF := by
  have hs : load_size_of (file_size_of [1, 2, 3, 4]) = 4 := by
    rw [file_size_of_small _ (by decide), load_size_of_eq]
    decide
  have hl : header_length (file_size_of [1, 2, 3, 4]) = 512 := by
    rw [header_length_eq, hs]
    decide
  refine ⟨hs, ?_, ?_⟩
  · rw [le32_length_emitted, hl]
  · intro j h1 h2
    rw [emitted_getD _ _ _ (by omega),
      img_final_rest _ _ _ (by omega) (Or.inr (by rw [hs]; simp; omega)) (by omega)]

/-- C9, the code at the failing input `01 02 03 04` with a buffer that held 0xFF
bytes: the twelve header bytes at offsets 20..31 of the written image are 0xFF,
not 0x00. -/
theorem header_pad_not_zeroed :
    ((emitted [1, 2, 3, 4] (fun _ => 0xFF)).drop 20).take 12 =
      [0xFF, 0xFF, 0xFF, 0xFF, 0xFF, 0xFF, 0xFF, 0xFF, 0xFF, 0xFF, 0xFF, 0xFF] := by
  have hl : header_length (file_size_of [1, 2, 3, 4]) = 512 := by
    rw [file_size_of_small _ (by decide), header_length_eq, load_size_of_eq]
    decide
  have hlen : (emitted [1, 2, 3, 4] (fun _ => 0xFF)).length = 512 := by
    rw [emitted_length, hl]
  apply List.ext_getElem
  · rw [List.length_take, List.length_drop, hlen]
    rfl
  · intro j h1 h2
    simp only [List.length_cons, List.length_nil] at h2
    rw [List.getElem_take, List.getElem_drop]
    have e := emitted_getD [1, 2, 3, 4] (fun _ => 0xFF) (20 + j) (by omega)
    rw [List.getD_eq_getElem?_getD, List.getElem?_eq_getElem (by omega)] at e
    simp only [Option.getD_some] at e
    rw [e, img_final_rest _ _ _ (by omega) (Or.inl (by omega)) (by omega)]
    have hj : j < 12 := by omega
    interval_cases j <;> rfl

/-- C10, the code at the failing input `argc = 2` (one path argument): whatever
the two `open` calls yield, `main` does not print the usage text and its first
action is to open the input file; with `argc` below 2 it prints the usage text,
opens nothing and returns the failure status. -/
theorem one_path_argument_skips_usage (fd_in : Option (List Nat)) (fd_out_ok : Bool)
    (img0 : Mem) :
    Event.usage ∉ (main 2 fd_in fd_out_ok img0).events ∧
      (main 2 fd_in fd_out_ok img0).events.head? = some Event.open_input ∧
      main 1 fd_in fd_out_ok img0 = ⟨[Event.usage], EXIT_FAILURE⟩ ∧
      main 0 fd_in fd_out_ok img0 = ⟨[Event.usage], EXIT_FAILURE⟩ := by
  refine ⟨?_, ?_, rfl, rfl⟩
  · unfold main
    rw [if_neg (by decide)]
    cases fd_in with
    | none => simp
    | some file => cases fd_out_ok <;> simp
  · unfold main
    rw [if_neg (by decide)]
    cases fd_in with
    | none => rfl
    | some file => cases fd_out_ok <;> rfl

/-! ## Lemmas on `gen_check_sum` alone -/

theorem gen_check_sum_ret (m : Mem) :
    (gen_check_sum m).1 = if rd32 m OFF_LENGTH % 4 = 0 then 0 else -1 := by
  by_cases h : rd32 m OFF_LENGTH % 4 = 0
  · rw [gen_check_sum_aligned m h, if_pos h]
  · rw [gen_check_sum_misaligned m h, if_neg h]

/-- Word `i` of a buffer whose `check_sum` field holds `v`. -/
theorem rd32_word_wr32_check_sum (m : Mem) (v i : Nat) :
    rd32 (wr32 m 12 v) (4 * i) = if i = 3 then v % 2 ^ 32 else rd32 m (4 * i) := by
  by_cases h : i = 3
  · subst h
    rw [if_pos rfl]
    exact rd32_wr32_same m 12 v
  · rw [if_neg h]
    exact rd32_wr32_of_disjoint m 12 v (4 * i) (by omega)

theorem sum_loop_stamped (m : Mem) (n : Nat) :
    sum_loop (wr32 m 12 0x5F0A6C39) n = ref_check_sum m n := by
  unfold ref_check_sum
  induction n with
  | zero => rfl
  | succ k ih =>
    rw [sum_loop_succ, ih, List.range_succ, List.map_append, List.sum_append,
      rd32_word_wr32_check_sum]
    simp only [List.map_cons, List.map_nil, List.sum_cons, List.sum_nil, Nat.add_zero]
    by_cases h : k = 3
    · rw [if_pos h, if_pos h]
      omega
    · rw [if_neg h, if_neg h]
      omega

theorem rd32_check_sum_after (m : Mem) (h : rd32 m OFF_LENGTH % 4 = 0) :
    rd32 (gen_check_sum m).2 OFF_CHECK_SUM = ref_check_sum m (rd32 m OFF_LENGTH / 4) := by
  rw [gen_check_sum_aligned m h]
  simp only []
  rw [rd32_wr32_same, Nat.mod_eq_of_lt (sum_loop_lt _ _)]
  exact sum_loop_stamped m _

/-! ## The sum over the image as written -/

theorem sum_loop_low (m : Mem) (v n : Nat) (h : n ≤ 3) :
    sum_loop (wr32 m 12 v) n = sum_loop m n :=
  sum_loop_congr _ _ n (fun j hj => wr32_of_out m 12 v j (by omega))

/-- Once word 3 is among the summed words, the sum is the sum with a zero
`check_sum` field plus the value of the field. -/
theorem sum_loop_check_sum_field (m : Mem) (v n : Nat) (h : 4 ≤ n) :
    sum_loop (wr32 m 12 v) n = (sum_loop (wr32 m 12 0) n + v % 2 ^ 32) % 2 ^ 32 := by
  induction n, h using Nat.le_induction with
  | base =>
    rw [sum_loop_succ, sum_loop_succ (wr32 m 12 0), sum_loop_low m v 3 (Nat.le_refl _),
      sum_loop_low m 0 3 (Nat.le_refl _), rd32_word_wr32_check_sum,
      rd32_word_wr32_check_sum]
    simp only [if_true]
    omega
  | succ k hk ih =>
    rw [sum_loop_succ, sum_loop_succ (wr32 m 12 0), ih, rd32_word_wr32_check_sum,
      rd32_word_wr32_check_sum, if_neg (by omega), if_neg (by omega)]
    omega

theorem unreset_check_sum_emitted (file : List Nat) (img0 : Mem) :
    unreset_check_sum (emitted file img0) =
      sum_loop (wr32 (img_filled file img0) 12 (check_sum_of file img0))
        (header_length (file_size_of file) / 4) := by
  unfold unreset_check_sum
  rw [le32_length_emitted, emitted_eq, word_sum_map_range _ _ _ (by omega), img_final_eq]
  unfold img_stamped
  have ho : OFF_CHECK_SUM = 12 := rfl
  rw [ho, wr32_wr32_same]

/-- The sum over the image as written reproduces the stored checksum exactly
when the stored checksum is the stamp. -/
theorem unreset_check_sum_iff (file : List Nat) (img0 : Mem) :
    unreset_check_sum (emitted file img0) = le32 (emitted file img0) 12 ↔
      le32 (emitted file img0) 12 = 0x5F0A6C39 := by
  have hb := (header_length_bounds (file_size_of file)).2.1
  have hn : 4 ≤ header_length (file_size_of file) / 4 := by omega
  rw [unreset_check_sum_emitted, le32_check_sum_emitted,
    sum_loop_check_sum_field _ _ _ hn]
  have hc : check_sum_of file img0 =
      (sum_loop (wr32 (img_filled file img0) 12 0) (header_length (file_size_of file) / 4)
        + 0x5F0A6C39 % 2 ^ 32) % 2 ^ 32 := by
    unfold check_sum_of img_stamped
    exact sum_loop_check_sum_field _ _ _ hn
  have hr := sum_loop_lt (wr32 (img_filled file img0) 12 0)
    (header_length (file_size_of file) / 4)
  generalize sum_loop (wr32 (img_filled file img0) 12 0)
    (header_length (file_size_of file) / 4) = r at hc hr
  generalize check_sum_of file img0 = c at hc
  omega

set_option maxRecDepth 100000 in
theorem check_sum_of_example :
    check_sum_of [0x67, 0x74, 0x5C, 0x97] (fun _ => 0) = 0x5F0A6C39 := by
  decide

/-! ## Independence of the trailing pad block -/

theorem img_after_read_congr_low (file : List Nat) (img0 img1 : Mem)
    (h : ∀ j, j < 24576 → img0 j = img1 j) (j : Nat) (hj : j < 24576) :
    img_after_read file img0 j = img_after_read file img1 j := by
  have hp : OFF_PAD = 24576 := by decide
  unfold img_after_read read_into
  simp only [hp]
  split
  · rfl
  · rw [memset_of_out _ _ _ _ _ (Or.inl hj), memset_of_out _ _ _ _ _ (Or.inl hj), h j hj]

theorem img_filled_congr_low (file : List Nat) (img0 img1 : Mem)
    (h : ∀ j, j < 24576 → img0 j = img1 j) (j : Nat) (hj : j < 24576) :
    img_filled file img0 j = img_filled file img1 j := by
  unfold img_filled wr32 memcpy
  simp only [img_after_read_congr_low file img0 img1 h j hj]

theorem img_stamped_congr_low (file : List Nat) (img0 img1 : Mem)
    (h : ∀ j, j < 24576 → img0 j = img1 j) (j : Nat) (hj : j < 24576) :
    img_stamped file img0 j = img_stamped file img1 j := by
  unfold img_stamped wr32
  simp only [img_filled_congr_low file img0 img1 h j hj]

theorem emitted_congr_low (file : List Nat) (img0 img1 : Mem)
    (h : ∀ j, j < 24576 → img0 j = img1 j) :
    emitted file img0 = emitted file img1 := by
  have hb := (header_length_bounds (file_size_of file)).2.2
  have hc : check_sum_of file img0 = check_sum_of file img1 := by
    unfold check_sum_of
    exact sum_loop_congr _ _ _
      (fun j hj => img_stamped_congr_low file img0 img1 h j (by omega))
  rw [emitted_eq, emitted_eq]
  apply List.map_congr_left
  intro j hj
  have hj2 : j < 24576 := by
    have := List.mem_range.mp hj
    omega
  rw [img_final_eq, img_final_eq, hc]
  unfold wr32
  simp only [img_stamped_congr_low file img0 img1 h j hj2]

/-! ## The claims on determinism, `gen_check_sum` and the sizes -/

/-- C11, the code at the failing input: two runs on the same file `01 02 03 04`,
one with a buffer that held 0x00 bytes and one with a buffer that held 0xFF
bytes, write different images. -/
theorem same_input_different_images :
    emitted [1, 2, 3, 4] (fun _ => 0) ≠ emitted [1, 2, 3, 4] (fun _ => 0xFF) := by
  intro h
  have hb := (header_length_bounds (file_size_of [1, 2, 3, 4])).2.1
  have e := congrArg (fun l => List.getD l 20 0) h
  simp only [] at e
  rw [emitted_getD _ _ _ (by omega), emitted_getD _ _ _ (by omega),
    img_final_rest _ _ _ (by omega) (Or.inl (by omega)) (by omega),
    img_final_rest _ _ _ (by omega) (Or.inl (by omega)) (by omega)] at e
  exact absurd e (by decide)

/-- C12: for every buffer, `gen_check_sum` returns -1 if and only if the length
field is not a multiple of 4, and returns 0 if and only if it is. -/
theorem gen_check_sum_fails_iff_misaligned (m : Mem) :
    ((gen_check_sum m).1 = -1 ↔ rd32 m OFF_LENGTH % 4 ≠ 0) ∧
      ((gen_check_sum m).1 = 0 ↔ rd32 m OFF_LENGTH % 4 = 0) := by
  rw [gen_check_sum_ret]
  by_cases h : rd32 m OFF_LENGTH % 4 = 0
  · rw [if_pos h]
    simp [h]
  · rw [if_neg h]
    simp [h]

/-- C13: for every buffer whose length field `L` is a multiple of 4, after
`gen_check_sum` the `check_sum` field holds the sum modulo `2 ^ 32` of the first
`L / 4` words of the buffer, word 3 counted as the stamp 0x5F0A6C39 (for
`L < 16` word 3 is not among them). -/
theorem gen_check_sum_computes_reference (m : Mem) (h : rd32 m OFF_LENGTH % 4 = 0) :
    rd32 (gen_check_sum m).2 OFF_CHECK_SUM = ref_check_sum m (rd32 m OFF_LENGTH / 4) :=
  rd32_check_sum_after m h

/-- Witness of C13 with `L = 8 < 16`: on a buffer of 0x01 bytes whose length
field is 8, the stored checksum is the sum of words 0 and 1. -/
theorem gen_check_sum_computes_reference_witness :
    rd32 (wr32 (fun _ => 1) 16 8) OFF_LENGTH % 4 = 0 ∧
      rd32 (gen_check_sum (wr32 (fun _ => 1) 16 8)).2 OFF_CHECK_SUM =
        0x01010101 + 0x01010101 :=
  ⟨by decide,
    (gen_check_sum_computes_reference (wr32 (fun _ => 1) 16 8) (by decide)).trans
      (by decide)⟩

/-- C14, counterexample: for the input `67 74 5C 97` and a buffer that held 0x00
bytes the stored checksum is the stamp, and the sum over the image as written,
checksum field not reset, reproduces the stored checksum. -/
theorem unreset_sum_reproduces_stamp_check_sum :
    le32 (emitted [0x67, 0x74, 0x5C, 0x97] (fun _ => 0)) 12 = 0x5F0A6C39 ∧
      unreset_check_sum (emitted [0x67, 0x74, 0x5C, 0x97] (fun _ => 0)) =
        le32 (emitted [0x67, 0x74, 0x5C, 0x97] (fun _ => 0)) 12 := by
  have h : le32 (emitted [0x67, 0x74, 0x5C, 0x97] (fun _ => 0)) 12 = 0x5F0A6C39 := by
    rw [le32_check_sum_emitted]
    exact check_sum_of_example
  exact ⟨h, (unreset_check_sum_iff _ _).2 h⟩

/-- C14 as amended: for every image the builder produces, the sum of the first
`length / 4` words of the image as written (checksum field not reset) reproduces
the stored checksum exactly when the stored checksum equals the stamp
0x5F0A6C39; for every image whose stored checksum differs from the stamp it does
not reproduce it. -/
theorem reset_needed_unless_check_sum_is_stamp (file : List Nat) (img0 : Mem) :
    (unreset_check_sum (emitted file img0) = le32 (emitted file img0) 12 ↔
      le32 (emitted file img0) 12 = 0x5F0A6C39) ∧
    (le32 (emitted file img0) 12 ≠ 0x5F0A6C39 →
      unreset_check_sum (emitted file img0) ≠ le32 (emitted file img0) 12) :=
  ⟨unreset_check_sum_iff file img0,
    fun hne he => hne ((unreset_check_sum_iff file img0).1 he)⟩

/-- C15: for every value `S` of `file_size`, `load_size` is 24544 when
`S > 24544` and otherwise the least multiple of 4 that is at least `S`; it is
always a multiple of 4 and at most 24544, and where `ALIGN` is evaluated the
32-bit sum `S + 3` does not wrap, so `ALIGN` is plain rounding up. -/
theorem load_size_aligned_and_bounded (S : Nat) :
    (24544 < S → load_size_of S = 24544) ∧
    (S ≤ 24544 → S ≤ load_size_of S ∧ load_size_of S % 4 = 0 ∧
      ∀ k, k % 4 = 0 → S ≤ k → load_size_of S ≤ k) ∧
    load_size_of S % 4 = 0 ∧ load_size_of S ≤ 24544 ∧
    (S ≤ 24544 → (S + 3) % 2 ^ UINT_BITS = S + 3 ∧
      ALIGN UINT_BITS S SIZEOF_INT = round_up S 4) := by
  refine ⟨?_, ?_, load_size_of_mod S, load_size_of_le S, ?_⟩
  · intro h
    rw [load_size_of_eq, if_pos h]
  · intro h
    refine ⟨load_size_of_ge S h, load_size_of_mod S, ?_⟩
    intro k hk hSk
    rw [load_size_of_eq, if_neg (by omega), round_up_4]
    omega
  · intro h
    have hu : UINT_BITS = 32 := rfl
    rw [hu]
    exact ⟨Nat.mod_eq_of_lt (by omega), ALIGN_uint_4 S (by omega)⟩

/-- C16: for every value `S` of `file_size` the length `main` stores satisfies
`(length & 3) == 0`; the length field of the buffer `main` passes to
`gen_check_sum` does so, and that call returns 0. -/
theorem check_sum_failure_unreachable (S : Nat) (file : List Nat) (img0 : Mem) :
    header_length S &&& 0x3 = 0 ∧
      rd32 (img_filled file img0) OFF_LENGTH &&& 0x3 = 0 ∧
      (gen_check_sum (img_filled file img0)).1 = 0 := by
  have h1 := header_length_mod S
  have h2 := length_filled_mod file img0
  refine ⟨?_, ?_, ?_⟩
  · rw [and_three]; omega
  · rw [and_three]; exact h2
  · rw [gen_check_sum_ret, if_pos h2]

/-- C17: for every value `S` of `file_size`, `32 + load_size <= length <= 24576`,
the size of header plus code and the offset of `img.pad`; every word
`gen_check_sum` reads and every byte `main` writes lies below that offset, and
the written image does not depend on the content of the buffer from that offset
on. -/
theorem emitted_range_inside_header_and_code (S : Nat) (file : List Nat) (img0 img1 : Mem) :
    32 + load_size_of S ≤ header_length S ∧ header_length S ≤ 24576 ∧
      HEADER_SIZE + SRAM_LOAD_MAX_SIZE = 24576 ∧ OFF_PAD = 24576 ∧
      (∀ i, i < header_length S / 4 → 4 * i + 3 < OFF_PAD) ∧
      rd32 (img_filled file img0) OFF_LENGTH ≤ OFF_PAD ∧
      (emitted file img0).length ≤ OFF_PAD ∧
      ((∀ j, j < OFF_PAD → img0 j = img1 j) → emitted file img0 = emitted file img1) := by
  have hb := header_length_bounds S
  have hf := (header_length_bounds (file_size_of file)).2.2
  have hp : OFF_PAD = 24576 := by decide
  rw [hp]
  refine ⟨by omega, hb.2.2, by decide, rfl, ?_, ?_, ?_, ?_⟩
  · intro i hi
    omega
  · rw [rd32_length_filled]; exact hf
  · rw [emitted_length]; exact hf
  · intro h
    exact emitted_congr_low file img0 img1 h

/-- C18: for every buffer, whatever its length field, every byte outside offsets
12..15 is the same after `gen_check_sum` as before. -/
theorem gen_check_sum_touches_only_check_sum (m : Mem) (j : Nat) (h : j < 12 ∨ 16 ≤ j) :
    (gen_check_sum m).2 j = m j :=
  gen_check_sum_frame m j h

/-- Witness of C18: on a buffer of 0x07 bytes with length field 8, byte 16 (the
low byte of the length field) is still 8 after `gen_check_sum`. -/
theorem gen_check_sum_touches_only_check_sum_witness :
    ((16 : Nat) < 12 ∨ 16 ≤ 16) ∧ (gen_check_sum (wr32 (fun _ => 7) 16 8)).2 16 = 8 :=
  ⟨by decide,
    (gen_check_sum_touches_only_check_sum (wr32 (fun _ => 7) 16 8) 16 (by decide)).trans
      (by decide)⟩

/-- C19: for every buffer whose length field is not a multiple of 4,
`gen_check_sum` returns -1 and the buffer afterwards is the buffer before, the
`check_sum` field included. -/
theorem gen_check_sum_atomic_on_failure (m : Mem) (h : rd32 m OFF_LENGTH % 4 ≠ 0) :
    gen_check_sum m = (-1, m) :=
  gen_check_sum_misaligned m h

/-- Witness of C19: a buffer of 0x01 bytes has the length field 0x01010101, not a
multiple of 4, and `gen_check_sum` returns -1 and the buffer as it was. -/
theorem gen_check_sum_atomic_on_failure_witness :
    rd32 (fun _ => 1) OFF_LENGTH % 4 ≠ 0 ∧
      gen_check_sum (fun _ => 1) = (-1, fun _ => 1) :=
  ⟨by decide, gen_check_sum_atomic_on_failure (fun _ => 1) (by decide)⟩

/-! ## Files of 4 GiB and more -/

/-- The size of a file of `2 ^ 32 + 4` bytes, once stored in `file_size`, is 4. -/
theorem file_size_of_huge (b : Nat) : file_size_of (List.replicate (2 ^ 32 + 4) b) = 4 := by
  unfold file_size_of
  rw [List.length_replicate]
  decide

theorem header_length_four : header_length 4 = 512 := by
  rw [header_length_eq, load_size_of_eq]
  decide

theorem load_size_of_four : load_size_of 4 = 4 := by
  rw [load_size_of_eq]
  decide

/-- C2, the code at the failing input, a file of `2 ^ 32 + 4` bytes: its size
is above 24544, yet the length field of the written image is 512, not 24576,
and 512 bytes are written. -/
theorem huge_file_length_field_wraps (img0 : Mem) :
    24544 < (List.replicate (2 ^ 32 + 4) (0 : Nat)).length ∧
      le32 (emitted (List.replicate (2 ^ 32 + 4) 0) img0) 16 = 512 ∧
      (emitted (List.replicate (2 ^ 32 + 4) 0) img0).length = 512 := by
  refine ⟨?_, ?_, ?_⟩
  · rw [List.length_replicate]
    decide
  · rw [le32_length_emitted, file_size_of_huge, header_length_four]
  · rw [emitted_length, file_size_of_huge, header_length_four]

/-- C5, the code at the failing input, a file of `2 ^ 32 + 4` bytes 0x01 with a
buffer that held 0x00 bytes: index 4 is below `min S 24544` and input byte 4 is
0x01, yet byte 36 of the written image is 0x00, the prior content of the buffer;
and only 512 bytes are written, so offset `32 + 480` is not in the image. -/
theorem huge_file_payload_not_copied :
    4 < min (List.replicate (2 ^ 32 + 4) (1 : Nat)).length 24544 ∧
      (List.replicate (2 ^ 32 + 4) (1 : Nat)).getD 4 0 = 1 ∧
      (emitted (List.replicate (2 ^ 32 + 4) 1) (fun _ => 0)).getD (32 + 4) 0 = 0 ∧
      (emitted (List.replicate (2 ^ 32 + 4) 1) (fun _ => 0)).length = 512 := by
  have hl : header_length (file_size_of (List.replicate (2 ^ 32 + 4) 1)) = 512 := by
    rw [file_size_of_huge, header_length_four]
  refine ⟨?_, ?_, ?_, ?_⟩
  · rw [List.length_replicate]
    decide
  · rw [List.getD_eq_getElem?_getD, List.getElem?_replicate, if_pos (by decide)]
    rfl
  · rw [emitted_getD _ _ _ (by rw [hl]; decide),
      img_final_rest _ _ _ (by decide)
        (Or.inr (by
          rw [file_size_of_huge, load_size_of_four]
          have := Nat.min_le_left 4 (List.replicate (2 ^ 32 + 4) 1).length
          omega))
        (by decide)]
  · rw [emitted_length, hl]

end Mksunxiboot
